import Mathlib

/-!
# Shallow embedding of the G10 FX regime-detection pipeline

This file embeds the data-shaping core of `pipeline.py`,
`cot_pipeline.py` and `morning_brief.py` and settles the stated
properties of the time-series alignment and feature derivation.

Conventions of the embedding:

* A column of a pandas frame is a `List (Option ℚ)`: one entry per row,
  `none` standing for NaN (an absent value).
* Dates are integers counting days from 1970-01-01, so
  `dayofweek d = (d + 3) % 7` agrees with pandas (Monday = 0; day 0,
  1970-01-01, was a Thursday).
* Where pandas float division can produce signed infinities, the value
  type `FVal` keeps them distinct from NaN and from finite numbers.
-/

/-- pandas `DatetimeIndex.dayofweek` for an epoch-day number: Monday = 0,
Sunday = 6 (day 0, 1970-01-01, was a Thursday). -/
def dayofweek (d : ℤ) : ℤ := (d + 3) % 7

/-- Elementwise subtraction of two optional values with pandas NaN
propagation: absent whenever either operand is absent. -/
def sub_opt : Option ℚ → Option ℚ → Option ℚ
  | some a, some b => some (a - b)
  | _, _ => none

/-- The value `Series.ffill` with fill limit `k` leaves at row `t`: the
value of the last valid row `s ≤ t`, provided the run of missing rows
after it is short enough, namely `t - s ≤ k`; absent otherwise. -/
def ffillVal (k : Nat) (xs : List (Option ℚ)) (t : Nat) : Option ℚ :=
  match (List.range (t + 1)).reverse.find? (fun s => (xs.getD s none).isSome) with
  | none => none
  | some s => if t - s ≤ k then xs.getD s none else none

/-- Embeds `Series.ffill` with fill limit `k`, as applied to the yield columns in
`fetch_all_yields` and to the joined auxiliary columns in `build_master`:
each missing row takes the last valid value at most `k` rows back. -/
def ffill_limit (k : Nat) (xs : List (Option ℚ)) : List (Option ℚ) :=
  (List.range xs.length).map (ffillVal k xs)

/-- Exact-date lookup performed by the left join in `build_master`: the
value of an auxiliary column at date `d`, when `d` is one of the dates of
the auxiliary frame; absent when the date is not in the frame. -/
def reindexCol (auxDates : List ℤ) (c : List (Option ℚ)) (d : ℤ) : Option ℚ :=
  match auxDates, c with
  | a :: as, v :: vs => if a = d then v else reindexCol as vs d
  | _, _ => none

/-- The assembled yields table of `fetch_all_yields`: one column per
series, indexed by the union of the source dates. A column is `none` on
dates where only another source reported (the per-source series were
dropna-ed, so their own dates carry real values). -/
structure YieldsFrame where
  dates : List ℤ
  us2y : List (Option ℚ)
  us10y : List (Option ℚ)
  de2y : List (Option ℚ)
  de10y : List (Option ℚ)
  jp2y : List (Option ℚ)
  jp10y : List (Option ℚ)
deriving DecidableEq

/-- Embeds `pipeline.fetch_all_yields` after the network assembly: every yield
column is forward filled with limit 5 to cover weekends and holidays
(pipeline.py lines 237-247). -/
def fetch_all_yields (y : YieldsFrame) : YieldsFrame :=
  { dates := y.dates
    us2y := ffill_limit 5 y.us2y
    us10y := ffill_limit 5 y.us10y
    de2y := ffill_limit 5 y.de2y
    de10y := ffill_limit 5 y.de10y
    jp2y := ffill_limit 5 y.jp2y
    jp10y := ffill_limit 5 y.jp10y }

/-- One spread column over the `n` rows of the yields frame: elementwise
difference of the two legs with pandas NaN propagation. -/
def spreadCol (n : Nat) (a b : List (Option ℚ)) : List (Option ℚ) :=
  (List.range n).map (fun i => sub_opt (a.getD i none) (b.getD i none))

/-- The five differential columns of `calculate_differentials`. -/
structure DiffFrame where
  dates : List ℤ
  us_de_10y_spread : List (Option ℚ)
  us_de_2y_spread : List (Option ℚ)
  us_jp_10y_spread : List (Option ℚ)
  us_jp_2y_spread : List (Option ℚ)
  us_curve : List (Option ℚ)
deriving DecidableEq

/-- Embeds `pipeline.calculate_differentials`: the four configured spread pairs
and the US curve slope, each a plain elementwise difference of two yield
columns of the (already forward-filled) yields frame. -/
def calculate_differentials (y : YieldsFrame) : DiffFrame :=
  { dates := y.dates
    us_de_10y_spread := spreadCol y.dates.length y.us2y y.de10y
    us_de_2y_spread := spreadCol y.dates.length y.us2y y.de2y
    us_jp_10y_spread := spreadCol y.dates.length y.us2y y.jp10y
    us_jp_2y_spread := spreadCol y.dates.length y.us2y y.jp2y
    us_curve := spreadCol y.dates.length y.us10y y.us2y }

/-- The FX frame returned by `fetch_fx_data`: the trading calendar and
the three price columns. -/
structure FxFrame where
  dates : List ℤ
  eurusd : List (Option ℚ)
  usdjpy : List (Option ℚ)
  dxy : List (Option ℚ)
deriving DecidableEq

/-- A frame of auxiliary (non-FX) columns joined onto the master panel. -/
structure AuxFrame where
  dates : List ℤ
  cols : List (List (Option ℚ))
deriving DecidableEq

/-- One row of the master panel: the date, the three FX prices, and the
auxiliary column values at that row. -/
structure MasterRow where
  date : ℤ
  eurusd : Option ℚ
  usdjpy : Option ℚ
  dxy : Option ℚ
  aux : List (Option ℚ)
deriving DecidableEq

/-- One auxiliary column after the left join onto the FX calendar and the
second forward fill with limit 5 (`build_master`, pipeline.py lines
343-348). -/
def joinAuxCol (fxDates auxDates : List ℤ) (c : List (Option ℚ)) : List (Option ℚ) :=
  ffill_limit 5 (fxDates.map (reindexCol auxDates c))

/-- All auxiliary columns of `build_master` after join and forward fill. -/
def master_joined (fx : FxFrame) (aux : AuxFrame) : List (List (Option ℚ)) :=
  aux.cols.map (joinAuxCol fx.dates aux.dates)

/-- The candidate master row at position `i` of the FX calendar, before
the row filters of `build_master`. -/
def mk_master_row (fx : FxFrame) (joined : List (List (Option ℚ))) (i : Nat) : MasterRow :=
  { date := fx.dates.getD i 0
    eurusd := fx.eurusd.getD i none
    usdjpy := fx.usdjpy.getD i none
    dxy := fx.dxy.getD i none
    aux := joined.map (fun c => c.getD i none) }

/-- Embeds `pipeline.build_master`: the FX dates define the calendar; auxiliary
columns are joined and forward filled (limit 5); then rows with missing
EURUSD are dropped, then non-weekday rows are dropped. -/
def build_master (fx : FxFrame) (aux : AuxFrame) : List MasterRow :=
  let rows := (List.range fx.dates.length).map (mk_master_row fx (master_joined fx aux))
  (rows.filter (fun r => r.eurusd.isSome)).filter (fun r => decide (dayofweek r.date < 5))

/-- The non-FX columns handed to `build_master` by `pipeline.main`: the
six yield columns followed by the five differential columns, all on the
yields-frame calendar. -/
def master_aux (y : YieldsFrame) : AuxFrame :=
  { dates := y.dates
    cols := [y.us2y, y.us10y, y.de2y, y.de10y, y.jp2y, y.jp10y,
             (calculate_differentials y).us_de_10y_spread,
             (calculate_differentials y).us_de_2y_spread,
             (calculate_differentials y).us_jp_10y_spread,
             (calculate_differentials y).us_jp_2y_spread,
             (calculate_differentials y).us_curve] }

/-- Embeds `pipeline.main` up to the assembled panel: fetch yields (applying the
first forward fill), compute differentials, then build the master panel
(applying the join and the second forward fill). -/
def pipeline_master (fx : FxFrame) (rawY : YieldsFrame) : List MasterRow :=
  build_master fx (master_aux (fetch_all_yields rawY))

/-- The lookback windows of `calculate_changes`, in trading days
(1D, 1W, 1M, 3M, 12M). -/
def change_periods : List Nat := [1, 5, 21, 63, 252]

/-- Embeds `Series.shift n` read at row `t`: the value `n` rows earlier, absent
for the first `n` rows. -/
def shift_val (n : Nat) (xs : List (Option ℚ)) (t : Nat) : Option ℚ :=
  if t < n then none else xs.getD (t - n) none

/-- FX percentage change column of `calculate_changes`:
(today / value n rows ago − 1) × 100, absent when either end is absent. -/
def pct_change_col (n : Nat) (xs : List (Option ℚ)) : List (Option ℚ) :=
  (List.range xs.length).map (fun t =>
    match xs.getD t none, shift_val n xs t with
    | some a, some b => some ((a / b - 1) * 100)
    | _, _ => none)

/-- Yield and spread percentage-point change column of
`calculate_changes`: today minus the value n rows ago, absent when
either end is absent. -/
def pp_change_col (n : Nat) (xs : List (Option ℚ)) : List (Option ℚ) :=
  (List.range xs.length).map (fun t => sub_opt (xs.getD t none) (shift_val n xs t))

/-- The trailing window length of the volatility percentile: three years
of trading days. -/
def window_3y : Nat := 252 * 3

/-- Average rank of `v` among the observations `obs` (pandas rank with
the average method): values below `v` each contribute one position, and
the group tied with `v` shares the mean of the positions it occupies. -/
def avg_rank (v : ℚ) (obs : List ℚ) : ℚ :=
  ((obs.filter (fun w => decide (w < v))).length : ℚ) +
    (((obs.filter (fun w => decide (w = v))).length : ℚ) + 1) / 2

/-- The rolling window of rows feeding row `t`: rows
max(0, t + 1 − w) .. t of the column, oldest first. -/
def windowSlice (w : Nat) (xs : List (Option ℚ)) (t : Nat) : List (Option ℚ) :=
  ((List.range (t + 1)).drop (t + 1 - w)).map (fun s => xs.getD s none)

/-- Rolling rank of one window, in percent: the average rank of the last
row of the window among the valid values in it, divided by their count,
times 100. Absent when the last row is missing or fewer than `minp`
valid values exist in the window. -/
def window_rank (minp : Nat) (sl : List (Option ℚ)) : Option ℚ :=
  match sl.getLast? with
  | some (some v) =>
    let obs := sl.filterMap id
    if obs.length < minp then none
    else some (avg_rank v obs / (obs.length : ℚ) * 100)
  | _ => none

/-- Embeds `Rolling.rank` with pct over window `w` and minimum `minp`
observations, times 100. -/
def rolling_rank_pct (w minp : Nat) (xs : List (Option ℚ)) : List (Option ℚ) :=
  (List.range xs.length).map (fun t => window_rank minp (windowSlice w xs t))

/-- Embeds `calculate_volatility`: percentile of the 30-day volatility inside a
trailing 3-year (756 row) window, requiring at least 126 observations
(pipeline.py lines 312-321). -/
def vol_pct_col (vol30 : List (Option ℚ)) : List (Option ℚ) :=
  rolling_rank_pct window_3y 126 vol30

/-- A pandas float as the COT arithmetic can produce it: NaN (absent),
a signed infinity, or a finite rational. -/
inductive FVal
  | nan
  | posInf
  | negInf
  | num (q : ℚ)
deriving DecidableEq

/-- net / open_interest × 100 under pandas float semantics: NaN when
either input is absent and on 0/0; a signed infinity when open interest
is zero and net is not; the finite quotient otherwise
(cot_pipeline.py lines 176-178). -/
def pct_oi_val : Option ℚ → Option ℚ → FVal
  | some n, some d =>
    if d = 0 then
      if 0 < n then FVal.posInf
      else if n < 0 then FVal.negInf
      else FVal.nan
    else FVal.num (n / d * 100)
  | _, _ => FVal.nan

/-- Net position column: longs minus shorts, elementwise with NaN
propagation. -/
def net_col (longs shorts : List (Option ℚ)) : List (Option ℚ) :=
  (List.range longs.length).map (fun i => sub_opt (longs.getD i none) (shorts.getD i none))

/-- net over open interest, as a column. -/
def pct_oi_col (net oi : List (Option ℚ)) : List FVal :=
  (List.range net.length).map (fun i => pct_oi_val (net.getD i none) (oi.getD i none))

/-- Embeds `Series.rank` with pct over the whole history, times 100: the average
rank of each valid value among all valid values, divided by their count;
absent rows stay absent. -/
def rank_pct_col (xs : List (Option ℚ)) : List (Option ℚ) :=
  let obs := xs.filterMap id
  xs.map (fun x =>
    match x with
    | some v => some (avg_rank v obs / (obs.length : ℚ) * 100)
    | none => none)

/-- The raw weekly COT columns kept for one instrument. -/
structure RawCot where
  dates : List ℤ
  lev_long : List (Option ℚ)
  lev_short : List (Option ℚ)
  assetmgr_long : List (Option ℚ)
  assetmgr_short : List (Option ℚ)
  tot_long : List (Option ℚ)
  tot_short : List (Option ℚ)
  open_interest : List (Option ℚ)
deriving DecidableEq

/-- The derived positioning columns of `calculate_positioning` for one
instrument, one triple per trader category. -/
structure PositionedTicker where
  dates : List ℤ
  lev_net : List (Option ℚ)
  lev_pct_oi : List FVal
  lev_percentile : List (Option ℚ)
  assetmgr_net : List (Option ℚ)
  assetmgr_pct_oi : List FVal
  assetmgr_percentile : List (Option ℚ)
  noncom_net : List (Option ℚ)
  noncom_pct_oi : List FVal
  noncom_percentile : List (Option ℚ)
deriving DecidableEq

/-- Embeds `cot_pipeline.calculate_positioning` for one instrument: per category
net = long − short, net over open interest, and the full-history
percentile of net (cot_pipeline.py lines 141-225). The NonCommercial
category uses the total-reported positions as its proxy. -/
def calculate_positioning (r : RawCot) : PositionedTicker :=
  { dates := r.dates
    lev_net := net_col r.lev_long r.lev_short
    lev_pct_oi := pct_oi_col (net_col r.lev_long r.lev_short) r.open_interest
    lev_percentile := rank_pct_col (net_col r.lev_long r.lev_short)
    assetmgr_net := net_col r.assetmgr_long r.assetmgr_short
    assetmgr_pct_oi := pct_oi_col (net_col r.assetmgr_long r.assetmgr_short) r.open_interest
    assetmgr_percentile := rank_pct_col (net_col r.assetmgr_long r.assetmgr_short)
    noncom_net := net_col r.tot_long r.tot_short
    noncom_pct_oi := pct_oi_col (net_col r.tot_long r.tot_short) r.open_interest
    noncom_percentile := rank_pct_col (net_col r.tot_long r.tot_short) }

/-- The columns `save_cot` writes for one instrument: the renamed
category columns plus the three legacy generic columns. -/
structure SavedTicker where
  dates : List ℤ
  lev_net : List (Option ℚ)
  lev_pct_oi : List FVal
  lev_percentile : List (Option ℚ)
  assetmgr_net : List (Option ℚ)
  assetmgr_pct_oi : List FVal
  assetmgr_percentile : List (Option ℚ)
  noncom_net : List (Option ℚ)
  noncom_pct_oi : List FVal
  noncom_percentile : List (Option ℚ)
  net_pos : List (Option ℚ)
  net_pct_oi : List FVal
  percentile : List (Option ℚ)
deriving DecidableEq

/-- Embeds `cot_pipeline.save_cot` for one instrument: category columns are
renamed with the ticker prefix, and the legacy generic columns are
copies of the Leveraged Money columns (cot_pipeline.py lines 304-311). -/
def save_cot_ticker (p : PositionedTicker) : SavedTicker :=
  { dates := p.dates
    lev_net := p.lev_net
    lev_pct_oi := p.lev_pct_oi
    lev_percentile := p.lev_percentile
    assetmgr_net := p.assetmgr_net
    assetmgr_pct_oi := p.assetmgr_pct_oi
    assetmgr_percentile := p.assetmgr_percentile
    noncom_net := p.noncom_net
    noncom_pct_oi := p.noncom_pct_oi
    noncom_percentile := p.noncom_percentile
    net_pos := p.lev_net
    net_pct_oi := p.lev_pct_oi
    percentile := p.lev_percentile }

/-- Embeds `morning_brief._divergence_flag`: the flag fires when both nets are
present and exactly one of them is strictly positive; no flag when
either is absent. -/
def divergence_flag (lev am : Option ℚ) : Bool :=
  match lev, am with
  | some l, some a => decide (0 < l) != decide (0 < a)
  | _, _ => false

/-- The per-instrument net-position values the morning brief reads from
one row of the merged panel. -/
structure BriefRow where
  lev_net : Option ℚ
  am_net : Option ℚ
  noncom_net : Option ℚ
deriving DecidableEq

/-- The divergence line of `morning_brief.build_brief` for one
instrument: computed from the Leveraged Money and Asset Manager nets of
the row only. -/
def brief_divergence (r : BriefRow) : Bool :=
  divergence_flag r.lev_net r.am_net

/-! ## General lemmas about the embedded operations -/

/-- Reading a mapped range at a position inside it. -/
theorem getD_map_range {α : Type} (f : Nat → α) (d : α) {n t : Nat} (h : t < n) :
    ((List.range n).map f).getD t d = f t := by
  rw [List.getD_eq_getElem?_getD, List.getElem?_map, List.getElem?_range h]
  rfl

/-- A present value read with getD lies inside the list. -/
theorem getD_some_lt_length {α : Type} {xs : List (Option α)} {i : Nat} {v : α}
    (h : xs.getD i none = some v) : i < xs.length := by
  by_contra hlt
  rw [List.getD_eq_getElem?_getD, List.getElem?_eq_none (by omega)] at h
  simp at h

/-- A present value read with getD is a member of the list. -/
theorem mem_of_getD_some {α : Type} {xs : List (Option α)} {i : Nat} {v : α}
    (h : xs.getD i none = some v) : some v ∈ xs := by
  have hi : i < xs.length := getD_some_lt_length h
  rw [List.getD_eq_getElem?_getD, List.getElem?_eq_getElem hi] at h
  simp only [Option.getD_some] at h
  rw [← h]
  exact List.getElem_mem hi

/-- Forward filling preserves the column length. -/
theorem ffill_limit_length (k : Nat) (xs : List (Option ℚ)) :
    (ffill_limit k xs).length = xs.length := by
  simp [ffill_limit]

/-- A value present after one forward fill with limit `k` originates at a
real observation at most `k` rows back. -/
theorem ffillVal_gap {k : Nat} {xs : List (Option ℚ)} {t : Nat} {v : ℚ}
    (h : ffillVal k xs t = some v) :
    ∃ s, s ≤ t ∧ t - s ≤ k ∧ xs.getD s none = some v := by
  unfold ffillVal at h
  split at h
  · exact absurd h (by simp)
  · next s hf =>
    have hs : s ∈ List.range (t + 1) := List.mem_reverse.mp (List.mem_of_find?_eq_some hf)
    rw [List.mem_range] at hs
    split at h
    · next hk => exact ⟨s, by omega, hk, h⟩
    · exact absurd h (by simp)

/-- Column form of `ffillVal_gap`. -/
theorem ffill_limit_gap {k : Nat} {xs : List (Option ℚ)} {t : Nat} {v : ℚ}
    (h : (ffill_limit k xs).getD t none = some v) :
    ∃ s, s ≤ t ∧ t - s ≤ k ∧ xs.getD s none = some v := by
  have ht : t < xs.length := by
    have := getD_some_lt_length h
    rwa [ffill_limit_length] at this
  rw [ffill_limit, getD_map_range _ _ ht] at h
  exact ffillVal_gap h

/-- Reindexing a column onto its own calendar of distinct dates gives the
column back. -/
theorem map_reindex_self : ∀ (dates : List ℤ) (c : List (Option ℚ)),
    dates.Nodup → c.length = dates.length →
    dates.map (reindexCol dates c) = c := by
  intro dates
  induction dates with
  | nil =>
    intro c _ hlen
    simp only [List.length_nil] at hlen
    rw [List.length_eq_zero.mp hlen]
    rfl
  | cons a tl ih =>
    intro c hnd hlen
    cases c with
    | nil => simp at hlen
    | cons v vs =>
      have hnotmem : a ∉ tl := (List.nodup_cons.mp hnd).1
      have hnd' : tl.Nodup := (List.nodup_cons.mp hnd).2
      have hlen' : vs.length = tl.length := by simpa using hlen
      rw [List.map_cons]
      have hhead : reindexCol (a :: tl) (v :: vs) a = v := by
        simp [reindexCol]
      have htail : ∀ d ∈ tl, reindexCol (a :: tl) (v :: vs) d = reindexCol tl vs d := by
        intro d hd
        have hne : a ≠ d := by rintro rfl; exact hnotmem hd
        simp [reindexCol, hne]
      rw [hhead, List.map_congr_left htail, ih vs hnd' hlen']

/-- Reading a spread column inside its range. -/
theorem spreadCol_getD {n i : Nat} {a b : List (Option ℚ)} (h : i < n) :
    (spreadCol n a b).getD i none = sub_opt (a.getD i none) (b.getD i none) := by
  rw [spreadCol, getD_map_range _ _ h]

/-- A window with fewer valid observations than the minimum yields no
rank. -/
theorem window_rank_below_min {minp : Nat} {sl : List (Option ℚ)}
    (h : (sl.filterMap id).length < minp) : window_rank minp sl = none := by
  unfold window_rank
  split
  · simp [h]
  · rfl

/-- Observations below `x` together with those equal to `x` are all below
any `y > x`. -/
theorem count_lt_add_count_eq_le (obs : List ℚ) {x y : ℚ} (hxy : x < y) :
    (obs.filter (fun w => decide (w < x))).length
        + (obs.filter (fun w => decide (w = x))).length
      ≤ (obs.filter (fun w => decide (w < y))).length := by
  induction obs with
  | nil => simp
  | cons c tl ih =>
    rw [List.filter_cons, List.filter_cons, List.filter_cons]
    by_cases h1 : c < x
    · have h2 : ¬(c = x) := ne_of_lt h1
      have h3 : c < y := lt_trans h1 hxy
      simp [h1, h2, h3]
      omega
    · by_cases h2 : c = x
      · subst h2
        simp [h1, hxy]
        omega
      · by_cases h3 : c < y
        · simp [h1, h2, h3]
          omega
        · simp [h1, h2, h3]
          omega

/-- The average rank is monotone in the value. -/
theorem avg_rank_mono (obs : List ℚ) {x y : ℚ} (h : x < y) :
    avg_rank x obs ≤ avg_rank y obs := by
  unfold avg_rank
  have key : ((obs.filter (fun w => decide (w < x))).length : ℚ)
      + ((obs.filter (fun w => decide (w = x))).length : ℚ)
      ≤ ((obs.filter (fun w => decide (w < y))).length : ℚ) := by
    exact_mod_cast count_lt_add_count_eq_le obs h
  have e1 : (0:ℚ) ≤ ((obs.filter (fun w => decide (w = x))).length : ℚ) := by positivity
  have e2 : (0:ℚ) ≤ ((obs.filter (fun w => decide (w = y))).length : ℚ) := by positivity
  linarith

/-- Reading the full-history percentile column at a present row. -/
theorem rank_pct_col_getD {xs : List (Option ℚ)} {i : Nat} {v : ℚ}
    (h : xs.getD i none = some v) :
    (rank_pct_col xs).getD i none
      = some (avg_rank v (xs.filterMap id) / ((xs.filterMap id).length : ℚ) * 100) := by
  have hi : i < xs.length := getD_some_lt_length h
  have hx : xs[i]? = some (some v) := by
    rw [List.getD_eq_getElem?_getD] at h
    cases hval : xs[i]? with
    | none => rw [hval] at h; simp at h
    | some o =>
      rw [hval] at h
      simp only [Option.getD_some] at h
      rw [h]
  unfold rank_pct_col
  rw [List.getD_eq_getElem?_getD, List.getElem?_map, hx]
  rfl

/-! ## Claim theorems -/

/-- C8. For every row of the assembled master panel, the date falls on a
weekday (Monday through Friday, dayofweek below 5); no Saturday or Sunday
row survives the filters of `build_master`, whatever the upstream frames
contain. -/
theorem c8_weekday_only : ∀ (fx : FxFrame) (aux : AuxFrame) (r : MasterRow),
    r ∈ build_master fx aux → dayofweek r.date < 5 := by
  intro fx aux r hr
  unfold build_master at hr
  have := (List.mem_filter.mp hr).2
  simpa using this

/-- A one-row input for the C8 witness: a single Monday with EURUSD
present and no auxiliary columns. -/
def c8fx : FxFrame :=
  { dates := [4], eurusd := [some 1], usdjpy := [some 1], dxy := [some 1] }

/-- The empty auxiliary frame for the C8 witness. -/
def c8aux : AuxFrame := { dates := [], cols := [] }

/-- The one row `build_master` keeps for the C8 witness input. -/
def c8row : MasterRow :=
  { date := 4, eurusd := some 1, usdjpy := some 1, dxy := some 1, aux := [] }

/-- Witness for C8 at a concrete input. -/
theorem c8_weekday_only_witness : dayofweek c8row.date < 5 :=
  c8_weekday_only c8fx c8aux c8row (by decide)

/-- C10. A candidate row of `build_master` is retained exactly when its
EURUSD value is present and its date is a weekday: the retention test
never looks at USDJPY, DXY or the auxiliary columns, so a row with
EURUSD present is kept even when every other column is absent there. -/
theorem c10_row_retention : ∀ (fx : FxFrame) (aux : AuxFrame) (r : MasterRow),
    r ∈ build_master fx aux ↔
      (∃ i, i < fx.dates.length ∧ r = mk_master_row fx (master_joined fx aux) i) ∧
        r.eurusd.isSome = true ∧ dayofweek r.date < 5 := by
  intro fx aux r
  unfold build_master
  simp only [List.mem_filter, List.mem_map, List.mem_range, decide_eq_true_eq]
  constructor
  · rintro ⟨⟨⟨i, hi, hr⟩, he⟩, hw⟩
    exact ⟨⟨i, hi, hr.symm⟩, he, hw⟩
  · rintro ⟨⟨i, hi, hr⟩, he, hw⟩
    exact ⟨⟨⟨i, hi, hr.symm⟩, he⟩, hw⟩

/-- C9. In the saved positioning panel the legacy generic columns are,
row for row, the Leveraged Money columns: `save_cot_ticker` writes the
same column object under both names. -/
theorem c9_legacy_alias : ∀ (r : RawCot),
    (save_cot_ticker (calculate_positioning r)).net_pos
        = (save_cot_ticker (calculate_positioning r)).lev_net ∧
    (save_cot_ticker (calculate_positioning r)).net_pct_oi
        = (save_cot_ticker (calculate_positioning r)).lev_pct_oi ∧
    (save_cot_ticker (calculate_positioning r)).percentile
        = (save_cot_ticker (calculate_positioning r)).lev_percentile :=
  fun _ => ⟨rfl, rfl, rfl⟩

/-- The C6 counterexample row: Leveraged Money net +10, Asset Manager
net +5, NonCommercial net −3. -/
def c6row : BriefRow := { lev_net := some 10, am_net := some 5, noncom_net := some (-3) }

/-- C6 counterexample. At this row two trader categories disagree in
sign — Leveraged Money net is positive, NonCommercial net is negative —
yet the brief emits no divergence flag, because the flag only compares
Leveraged Money with Asset Manager. -/
theorem c6_counterexample :
    c6row.lev_net = some 10 ∧ c6row.noncom_net = some (-3) ∧
    (0:ℚ) < 10 ∧ (-3:ℚ) < 0 ∧
    brief_divergence c6row = false := by decide

/-- C6 amended. The divergence flag is computed from the Leveraged Money
and Asset Manager nets of the row only (NonCommercial is never
consulted); when both are present it fires exactly when one net is
strictly positive and the other is not — a pure sign comparison with no
magnitude weighting — and it never fires when either net is absent. -/
theorem c6_divergence_rule : ∀ (r : BriefRow) (l a : ℚ),
    brief_divergence r = divergence_flag r.lev_net r.am_net ∧
    (divergence_flag (some l) (some a) = true ↔ ¬((0 < l) ↔ (0 < a))) ∧
    (∀ x, divergence_flag none x = false ∧ divergence_flag x none = false) := by
  intro r l a
  refine ⟨rfl, ?_, ?_⟩
  · simp only [divergence_flag, bne_iff_ne, ne_eq, decide_eq_decide]
  · intro x
    cases x <;> exact ⟨rfl, rfl⟩

/-- C5 counterexample. With net = 100 contracts and open interest = 0,
the code computes net / open_interest × 100 as a signed infinity, a
present value — not an absent one as the claim requires. -/
theorem c5_counterexample :
    pct_oi_val (some 100) (some 0) = FVal.posInf ∧ FVal.posInf ≠ FVal.nan := by
  decide

/-- C5 amended. For every trader category and row: the pct-of-OI column
applies `pct_oi_val` to the net and open-interest values of the row;
when both are present and open interest is nonzero it equals
net / open_interest × 100; it is absent (NaN) when either input is
absent or when net and open interest are both zero; but when open
interest is zero and net is nonzero it is a signed infinity, a present
value, not absent. -/
theorem c5_pct_oi_rule : ∀ (net oi : List (Option ℚ)) (i : Nat), i < net.length →
    ((pct_oi_col net oi).getD i FVal.nan = pct_oi_val (net.getD i none) (oi.getD i none)) ∧
    (∀ n d : ℚ, d ≠ 0 → pct_oi_val (some n) (some d) = FVal.num (n / d * 100)) ∧
    (∀ n : ℚ, 0 < n → pct_oi_val (some n) (some 0) = FVal.posInf) ∧
    (∀ n : ℚ, n < 0 → pct_oi_val (some n) (some 0) = FVal.negInf) ∧
    pct_oi_val (some 0) (some 0) = FVal.nan ∧
    (∀ x, pct_oi_val x none = FVal.nan ∧ pct_oi_val none x = FVal.nan) := by
  intro net oi i hi
  refine ⟨?_, ?_, ?_, ?_, ?_, ?_⟩
  · rw [pct_oi_col, getD_map_range _ _ hi]
  · intro n d hd
    simp only [pct_oi_val]
    rw [if_neg hd]
  · intro n hn
    simp [pct_oi_val, hn]
  · intro n hn
    have hn' : ¬(0 < n) := by linarith
    simp [pct_oi_val, hn, hn']
  · simp [pct_oi_val]
  · intro x
    cases x <;> exact ⟨rfl, rfl⟩

/-- Witness for C5 amended at a concrete input. -/
theorem c5_pct_oi_rule_witness :
    ((pct_oi_col [some 20] [some 50]).getD 0 FVal.nan
        = pct_oi_val ([some (20:ℚ)].getD 0 none) ([some (50:ℚ)].getD 0 none)) ∧
    (∀ n d : ℚ, d ≠ 0 → pct_oi_val (some n) (some d) = FVal.num (n / d * 100)) ∧
    (∀ n : ℚ, 0 < n → pct_oi_val (some n) (some 0) = FVal.posInf) ∧
    (∀ n : ℚ, n < 0 → pct_oi_val (some n) (some 0) = FVal.negInf) ∧
    pct_oi_val (some 0) (some 0) = FVal.nan ∧
    (∀ x, pct_oi_val x none = FVal.nan ∧ pct_oi_val none x = FVal.nan) :=
  c5_pct_oi_rule [some 20] [some 50] 0 (by decide)

/-- C3. For any base column, any lookback window of `calculate_changes`
and any row `t`: when both the value at `t` and the value `n` rows back
are present, the percentage-change column holds
(value today / value n rows ago − 1) × 100 and the percentage-point
column holds the plain difference; when the shifted value is absent
(including the first `n` rows) both change columns are absent — never
zero. -/
theorem c3_change_rule : ∀ (xs : List (Option ℚ)) (n t : Nat) (a b : ℚ),
    n ∈ change_periods → t < xs.length →
    ((xs.getD t none = some a → shift_val n xs t = some b →
      (pct_change_col n xs).getD t none = some ((a / b - 1) * 100) ∧
      (pp_change_col n xs).getD t none = some (a - b)) ∧
     (shift_val n xs t = none →
      (pct_change_col n xs).getD t none = none ∧
      (pp_change_col n xs).getD t none = none)) := by
  intro xs n t a b _ ht
  constructor
  · intro ha hb
    constructor
    · rw [pct_change_col, getD_map_range _ _ ht, ha, hb]
    · rw [pp_change_col, getD_map_range _ _ ht, ha, hb]
      rfl
  · intro hb
    constructor
    · rw [pct_change_col, getD_map_range _ _ ht, hb]
      cases xs.getD t none <;> rfl
    · rw [pp_change_col, getD_map_range _ _ ht, hb]
      cases xs.getD t none <;> rfl

/-- Witness for C3 at a concrete input: a 1-day change on a two-row
series. -/
theorem c3_change_rule_witness :
    (([some 1, some 2] : List (Option ℚ)).getD 1 none = some 2 →
        shift_val 1 [some 1, some 2] 1 = some 1 →
      (pct_change_col 1 [some 1, some 2]).getD 1 none = some ((2 / 1 - 1) * 100) ∧
      (pp_change_col 1 [some 1, some 2]).getD 1 none = some (2 - 1)) ∧
    (shift_val 1 [some 1, some 2] 1 = none →
      (pct_change_col 1 [some 1, some 2]).getD 1 none = none ∧
      (pp_change_col 1 [some 1, some 2]).getD 1 none = none) :=
  c3_change_rule [some 1, some 2] 1 1 2 1 (by decide) (by decide)

/-- C4. The volatility percentile of `calculate_volatility`: (1) it is
absent at any row whose trailing 756-row window holds fewer than 126
valid volatility observations, however much raw history exists before
the window; (2) its value at a row depends only on that trailing window;
(3) the window spans at most 756 rows (exactly min (t+1) 756). -/
theorem c4_vol_pct_window :
    (∀ (xs : List (Option ℚ)) (t : Nat), t < xs.length →
        ((windowSlice window_3y xs t).filterMap id).length < 126 →
        (vol_pct_col xs).getD t none = none) ∧
    (∀ (xs ys : List (Option ℚ)) (t : Nat), t < xs.length → t < ys.length →
        windowSlice window_3y xs t = windowSlice window_3y ys t →
        (vol_pct_col xs).getD t none = (vol_pct_col ys).getD t none) ∧
    (∀ (xs : List (Option ℚ)) (t : Nat),
        (windowSlice window_3y xs t).length = min (t + 1) window_3y) := by
  refine ⟨?_, ?_, ?_⟩
  · intro xs t ht h
    rw [vol_pct_col, rolling_rank_pct, getD_map_range _ _ ht]
    exact window_rank_below_min h
  · intro xs ys t htx hty hsl
    rw [vol_pct_col, rolling_rank_pct, getD_map_range _ _ htx,
      vol_pct_col, rolling_rank_pct, getD_map_range _ _ hty, hsl]
  · intro xs t
    rw [windowSlice, List.length_map, List.length_drop, List.length_range]
    omega

/-- Witness for C4 at a concrete input: one lone volatility observation
is far below the 126 minimum, so the percentile is absent. -/
theorem c4_vol_pct_window_witness : (vol_pct_col [some 1]).getD 0 none = none :=
  c4_vol_pct_window.1 [some 1] 0 (by decide) (by decide)

/-- C7. The full-history percentile of `calculate_positioning` is
monotone: if net values x < y both occur in the same category and
instrument history, the percentile assigned to the row holding x is at
most the percentile assigned to the row holding y. -/
theorem c7_percentile_mono : ∀ (xs : List (Option ℚ)) (i j : Nat) (x y px py : ℚ),
    xs.getD i none = some x → xs.getD j none = some y → x < y →
    (rank_pct_col xs).getD i none = some px →
    (rank_pct_col xs).getD j none = some py →
    px ≤ py := by
  intro xs i j x y px py hx hy hxy hpx hpy
  rw [rank_pct_col_getD hx] at hpx
  rw [rank_pct_col_getD hy] at hpy
  have hpx' : px = avg_rank x (xs.filterMap id) / ((xs.filterMap id).length : ℚ) * 100 :=
    (Option.some_inj.mp hpx).symm
  have hpy' : py = avg_rank y (xs.filterMap id) / ((xs.filterMap id).length : ℚ) * 100 :=
    (Option.some_inj.mp hpy).symm
  have hmem : x ∈ xs.filterMap id :=
    List.mem_filterMap.mpr ⟨some x, mem_of_getD_some hx, rfl⟩
  have hn : (0:ℚ) < ((xs.filterMap id).length : ℚ) := by
    have : 0 < (xs.filterMap id).length := List.length_pos.mpr (List.ne_nil_of_mem hmem)
    exact_mod_cast this
  rw [hpx', hpy']
  apply mul_le_mul_of_nonneg_right _ (by norm_num : (0:ℚ) ≤ 100)
  exact (div_le_div_iff_of_pos_right hn).mpr (avg_rank_mono _ hxy)

/-- Witness for C7 at a concrete input: net values 1 < 2 get percentiles
50 and 100. -/
theorem c7_percentile_mono_witness : (50:ℚ) ≤ 100 :=
  c7_percentile_mono [some 1, some 2] 0 1 1 2 50 100
    (by decide) (by decide) (by decide)
    (by simp [rank_pct_col, avg_rank]; try norm_num)
    (by simp [rank_pct_col, avg_rank]; try norm_num)

/-- Eleven consecutive weekdays (three Mondays through Fridays worth of
epoch-day numbers) used by the C1 counterexample. -/
def c1dates : List ℤ := [4, 5, 6, 7, 8, 11, 12, 13, 14, 15, 18]

/-- FX input for the C1 counterexample: EURUSD present on every row, so
no row is dropped. -/
def c1fx : FxFrame :=
  { dates := c1dates
    eurusd := List.replicate 11 (some 1)
    usdjpy := List.replicate 11 (some 150)
    dxy := List.replicate 11 (some 100) }

/-- Yields input for the C1 counterexample: US 2Y has a single real
observation on the first date and nothing afterwards (its source went
stale), while US 10Y reports daily, so the union calendar covers all
eleven dates. -/
def c1rawY : YieldsFrame :=
  { dates := c1dates
    us2y := some 4 :: List.replicate 10 none
    us10y := List.replicate 11 (some 5)
    de2y := List.replicate 11 none
    de10y := List.replicate 11 none
    jp2y := List.replicate 11 none
    jp10y := List.replicate 11 none }

/-- C1 counterexample. The US 2Y column has its only real observation at
the first of the eleven panel rows, yet the assembled panel carries the
value on all eleven rows — ten trading days past the last real
observation, not five: the forward fill of `fetch_all_yields` (limit 5)
composes with the second forward fill of `build_master` (limit 5 again)
after the join, so the claimed 5-day staleness bound fails and the value
is still present beyond it. -/
theorem c1_counterexample :
    c1rawY.us2y = some 4 :: List.replicate 10 none ∧
    (pipeline_master c1fx c1rawY).map (fun r => r.date) = c1dates ∧
    (pipeline_master c1fx c1rawY).map (fun r => r.aux.getD 0 none)
      = List.replicate 11 (some 4) := by
  refine ⟨rfl, by with_unfolding_all rfl, by with_unfolding_all rfl⟩

/-- C1 amended. When the yields calendar and the FX calendar coincide
(with distinct dates), a value present in an assembled auxiliary yield
column originates at a real observation at most 10 trading days back —
the two forward fills of 5 compose — and beyond 10 trading days past the
last real observation the value is absent. The bound 5 claimed for the
assembled panel holds for each fill stage alone, not for the panel. -/
theorem c1_ffill_gap_bound : ∀ (dates : List ℤ) (raw : List (Option ℚ)) (t : Nat) (v : ℚ),
    dates.Nodup → raw.length = dates.length →
    (joinAuxCol dates dates (ffill_limit 5 raw)).getD t none = some v →
    ∃ s, s ≤ t ∧ t - s ≤ 10 ∧ raw.getD s none = some v := by
  intro dates raw t v hnd hlen h
  rw [joinAuxCol, map_reindex_self dates _ hnd (by rw [ffill_limit_length]; exact hlen)] at h
  obtain ⟨s1, hs1, hg1, h1⟩ := ffill_limit_gap h
  obtain ⟨s, hs, hg2, h2⟩ := ffill_limit_gap h1
  exact ⟨s, by omega, by omega, h2⟩

/-- Witness for C1 amended at the counterexample input: the value at row
10 originates at a real observation within 10 rows. -/
theorem c1_ffill_gap_bound_witness :
    ∃ s, s ≤ 10 ∧ 10 - s ≤ 10 ∧ c1rawY.us2y.getD s none = some 4 :=
  c1_ffill_gap_bound c1dates c1rawY.us2y 10 4 (by decide) (by decide)
    (by with_unfolding_all rfl)

/-- Seven consecutive weekdays used by the C2 counterexample. -/
def c2dates : List ℤ := [4, 5, 6, 7, 8, 11, 12]

/-- FX input for the C2 counterexample: EURUSD present on every row. -/
def c2fx : FxFrame :=
  { dates := c2dates
    eurusd := List.replicate 7 (some 1)
    usdjpy := List.replicate 7 (some 150)
    dxy := List.replicate 7 (some 100) }

/-- Yields input for the C2 counterexample: US 2Y reports daily while
DE 10Y has a single real observation on the first date, so after the
5-day forward fill of `fetch_all_yields` the DE leg dies at row 6 and
the spread computed there is stale once `build_master` forward fills
both columns again. -/
def c2rawY : YieldsFrame :=
  { dates := c2dates
    us2y := [some 4, some 5, some 6, some 7, some 8, some 9, some 10]
    us10y := List.replicate 7 none
    de2y := List.replicate 7 none
    de10y := some 2 :: List.replicate 6 none
    jp2y := List.replicate 7 none
    jp10y := List.replicate 7 none }

/-- Default row used to read the C2 panel at a position. -/
def c2row0 : MasterRow :=
  { date := 0, eurusd := none, usdjpy := none, dxy := none, aux := [] }

/-- C2 counterexample. At row 6 of the assembled panel both legs of the
US−DE 10Y pair are present (US 2Y = 10 is real, DE 10Y = 2 was carried
by the second forward fill) but the spread column holds 7, the carried
value of the previous row, not 10 − 2 = 8: in the Panel the spread can
disagree with A − B at the same row. (Auxiliary column 0 is US 2Y,
column 3 is DE 10Y, column 6 is the US−DE 10Y spread.) -/
theorem c2_counterexample :
    ((pipeline_master c2fx c2rawY).getD 6 c2row0).aux.getD 0 none = some 10 ∧
    ((pipeline_master c2fx c2rawY).getD 6 c2row0).aux.getD 3 none = some 2 ∧
    ((pipeline_master c2fx c2rawY).getD 6 c2row0).aux.getD 6 none = some 7 ∧
    sub_opt (some 10) (some 2) ≠ some 7 := by
  refine ⟨by with_unfolding_all rfl, by with_unfolding_all rfl,
    by with_unfolding_all rfl, ?_⟩
  intro h
  have h8 : sub_opt (some 10) (some 2) = some 8 := by with_unfolding_all rfl
  rw [h8] at h
  have : (8:ℚ) = 7 := Option.some_inj.mp h
  norm_num at this

/-- C2 amended. At the output of the Differential Engine
(`calculate_differentials`, before the second forward fill of the Panel
Assembler) every configured spread column at every row equals the
elementwise difference of its two legs: A − B when both legs are
present, absent when either leg is absent — never zero, never
interpolated. -/
theorem c2_diff_spread : ∀ (y : YieldsFrame) (i : Nat), i < y.dates.length →
    ((calculate_differentials y).us_de_10y_spread.getD i none
        = sub_opt (y.us2y.getD i none) (y.de10y.getD i none)) ∧
    ((calculate_differentials y).us_de_2y_spread.getD i none
        = sub_opt (y.us2y.getD i none) (y.de2y.getD i none)) ∧
    ((calculate_differentials y).us_jp_10y_spread.getD i none
        = sub_opt (y.us2y.getD i none) (y.jp10y.getD i none)) ∧
    ((calculate_differentials y).us_jp_2y_spread.getD i none
        = sub_opt (y.us2y.getD i none) (y.jp2y.getD i none)) ∧
    ((calculate_differentials y).us_curve.getD i none
        = sub_opt (y.us10y.getD i none) (y.us2y.getD i none)) ∧
    (∀ p q : ℚ, sub_opt (some p) (some q) = some (p - q)) ∧
    (∀ x, sub_opt none x = none ∧ sub_opt x none = none) := by
  intro y i h
  exact ⟨spreadCol_getD h, spreadCol_getD h, spreadCol_getD h, spreadCol_getD h,
    spreadCol_getD h, fun p q => rfl, fun x => ⟨rfl, by cases x <;> rfl⟩⟩

/-- Witness for C2 amended at the counterexample yields frame, row 0. -/
theorem c2_diff_spread_witness :
    ((calculate_differentials c2rawY).us_de_10y_spread.getD 0 none
        = sub_opt (c2rawY.us2y.getD 0 none) (c2rawY.de10y.getD 0 none)) ∧
    ((calculate_differentials c2rawY).us_de_2y_spread.getD 0 none
        = sub_opt (c2rawY.us2y.getD 0 none) (c2rawY.de2y.getD 0 none)) ∧
    ((calculate_differentials c2rawY).us_jp_10y_spread.getD 0 none
        = sub_opt (c2rawY.us2y.getD 0 none) (c2rawY.jp10y.getD 0 none)) ∧
    ((calculate_differentials c2rawY).us_jp_2y_spread.getD 0 none
        = sub_opt (c2rawY.us2y.getD 0 none) (c2rawY.jp2y.getD 0 none)) ∧
    ((calculate_differentials c2rawY).us_curve.getD 0 none
        = sub_opt (c2rawY.us10y.getD 0 none) (c2rawY.us2y.getD 0 none)) ∧
    (∀ p q : ℚ, sub_opt (some p) (some q) = some (p - q)) ∧
    (∀ x, sub_opt none x = none ∧ sub_opt x none = none) :=
  c2_diff_spread c2rawY 0 (by decide)
